import Mathlib

/-!
Verification of `src/smartsketch-upload.py` (Smart Sketch 2.0 image uploader).

The Python source is shallowly embedded: byte values are `Nat` (each < 256 where
it matters), Python `str` values are `List Char`, the PIL image object is a
structure holding mode, dimensions and a pixel function, and the asynchronous
upload session is a pure function from its inputs and an environment oracle
(the notification texts observed within each waiting window, and an optional
index of a chunk write that raises) to the list of externally visible events it
performs together with its outcome (`Except.error ()` models an uncaught
exception propagating out of `upload_image`).
-/

namespace SmartSketch

/-- Substring test on character lists: `isSubstr needle haystack` is `true` iff
`needle` occurs contiguously inside `haystack`; models Python's `in` on `str`. -/
def isSubstr (needle : List Char) : List Char → Bool
  | [] => needle.isEmpty
  | c :: t => needle.isPrefixOf (c :: t) || isSubstr needle t

/-- Case-insensitive containment, modelling `needle.lower() in haystack.lower()`
for the ASCII status strings this protocol uses. -/
def containsCI (haystack needle : List Char) : Bool :=
  isSubstr (needle.map Char.toLower) (haystack.map Char.toLower)

/-- ASCII characters Python's `str.strip()` treats as whitespace: CPython
strips 0x09-0x0D, 0x1C-0x1F and 0x20 (only code points below 0x80 can occur
here, since the payload was decoded with `errors='ignore'`). -/
def isPySpace (c : Char) : Bool :=
  c = '\t' || c = '\n' || c = '\x0b' || c = '\x0c' || c = '\r' ||
    c = '\x1c' || c = '\x1d' || c = '\x1e' || c = '\x1f' || c = ' '

/-- Python's `str.strip()`: remove leading and trailing whitespace. -/
def pyStrip (s : List Char) : List Char :=
  (((s.dropWhile isPySpace).reverse).dropWhile isPySpace).reverse

/-- Python's `bytes.decode('ascii', errors='ignore')`: bytes ≥ 0x80 are
dropped, the rest become their ASCII characters. -/
def asciiDecodeIgnore (data : List Nat) : List Char :=
  (data.filter (fun b => b < 128)).map Char.ofNat

/-- Embedding of `SmartSketchUploader._notification_handler` (src lines 26-33):
decode the payload as ASCII ignoring undecodable bytes and append it to
`self.responses` when the stripped text is non-empty (Python string truthiness
of `text.strip()`).  The console print of the text is a side effect with no
protocol-visible state and is not part of the log model; `sender` is unused, as
in the source. -/
def notification_handler (responses : List (List Char)) (sender : Nat)
    (data : List Nat) : List (List Char) :=
  let text := asciiDecodeIgnore data
  if pyStrip text ≠ [] then responses ++ [text] else responses

/-- Model of a decoded PIL image: color mode, dimensions, and per-pixel RGB
channel values (`pixels[x, y]` returns the triple `(r, g, b)`). -/
structure PILImage where
  mode : String
  width : Nat
  height : Nat
  pix : Nat → Nat → Nat × Nat × Nat

/-- Embedding of `SmartSketchUploader.load_and_prepare_image` (src lines
51-68).  `Image.convert('RGB')` and `Image.resize(..., LANCZOS)` are PIL
library calls, passed in as the external functions `convert` and `resize`;
the prints are console-only. -/
def load_and_prepare_image (convert : PILImage → PILImage)
    (resize : PILImage → Nat → Nat → PILImage) (img : PILImage)
    (target_width target_height : Nat) : PILImage :=
  let img1 := if img.mode ≠ "RGB" then convert img else img
  if (img1.width, img1.height) ≠ (target_width, target_height) then
    resize img1 target_width target_height
  else img1

/-- Embedding of `SmartSketchUploader.rgb_to_rgb565` (src lines 71-90): scan
rows top to bottom, pixels left to right, quantize each channel, pack 5-6-5
and emit low byte then high byte. -/
def rgb_to_rgb565 (img : PILImage) : List Nat :=
  (List.range img.height).flatMap fun y =>
    (List.range img.width).flatMap fun x =>
      match img.pix x y with
      | (r, g, b) =>
        let r5 := (r >>> 3) &&& 0x1F
        let g6 := (g >>> 2) &&& 0x3F
        let b5 := (b >>> 3) &&& 0x1F
        let rgb565 := (r5 <<< 11) ||| (g6 <<< 5) ||| b5
        [rgb565 &&& 0xFF, (rgb565 >>> 8) &&& 0xFF]

/-- Packing of one pixel exactly as computed inside `rgb_to_rgb565`
(src lines 81-85). -/
def pack565 (r g b : Nat) : Nat :=
  (((r >>> 3) &&& 0x1F) <<< 11) ||| (((g >>> 2) &&& 0x3F) <<< 5) |||
    ((b >>> 3) &&& 0x1F)

/-- Modelled from the spec's round-trip wording (no unpacker exists in the
source): unpack a 5-6-5 value by extracting each field and shifting it back to
8 bits. -/
def unpack565 (v : Nat) : Nat × Nat × Nat :=
  (((v >>> 11) &&& 0x1F) <<< 3, ((v >>> 5) &&& 0x3F) <<< 2, (v &&& 0x1F) <<< 3)

/-- Spec-side description of one emitted pixel: quantize without masks, pack,
and emit the low byte then the high byte of the 16-bit value. -/
def rgb565_pixel_spec (r g b : Nat) : List Nat :=
  let v := ((r >>> 3) <<< 11) ||| ((g >>> 2) <<< 5) ||| (b >>> 3)
  [v % 256, v / 256]

/-- Spec-side description of the whole transcoding output: the pixels of the
image emitted in row-major scan order, each as `rgb565_pixel_spec`. -/
def rgb565_spec (img : PILImage) : List Nat :=
  (List.range img.height).flatMap fun y =>
    (List.range img.width).flatMap fun x =>
      match img.pix x y with
      | (r, g, b) => rgb565_pixel_spec r g b

/-- Loop body of `prepare_chunks` (src lines 100-102): slice the list into
consecutive pieces of `chunk_size` elements, the last one possibly shorter.
The structural `fuel` argument bounds the number of loop iterations; it is
called with `fuel = data.length`, which suffices because every iteration with
`chunk_size ≥ 1` consumes at least one element.  (Python's `range(0, n, 0)`
would raise; all claims assume `chunk_size ≥ 1`.) -/
def chunksOfGo (chunk_size : Nat) : Nat → List Nat → List (List Nat)
  | 0, _ => []
  | _ + 1, [] => []
  | fuel + 1, data => data.take chunk_size :: chunksOfGo chunk_size fuel (data.drop chunk_size)

/-- Embedding of `SmartSketchUploader.prepare_chunks` (src lines 94-104):
reverse the byte sequence, then split it into `chunk_size`-byte chunks. -/
def prepare_chunks (rgb565_data : List Nat) (chunk_size : Nat) :
    List (List Nat) :=
  chunksOfGo chunk_size rgb565_data.reverse.length rgb565_data.reverse

/-- Command frame built at src line 127: `[0x01, 0x00, 0x00, 0x00, chunk_size,
0x00, 0x02, 0x00]`. -/
def command_frame (chunk_size : Nat) : List Nat :=
  [0x01, 0x00, 0x00, 0x00, chunk_size, 0x00, 0x02, 0x00]

/-- Console messages printed by `upload_image`, one constructor per print
site; the numeric payloads are the interpolated values. -/
inductive Msg where
  | banner : Msg
  | rgbLen : Nat → Msg
  | totalChunks : Nat → Msg
  | sendingCommand : Msg
  | failedOk : Msg
  | deviceReady : Msg
  | uploading : Nat → Msg
  | progress : Nat → Nat → Msg
  | progressDone : Nat → Msg
  | allSent : Msg
  | waitingDone : Msg
  | successBanner : Msg
  | softTimeout : Msg
deriving DecidableEq

/-- Externally visible actions of an upload session, in the order they are
performed: console messages, characteristic writes (payload and the
`response` flag of `write_gatt_char`), notification subscription management,
and the pacing sleeps. -/
inductive Ev where
  | msg : Msg → Ev
  | writeChar : List Nat → Bool → Ev
  | startNotify : Ev
  | stopNotify : Ev
  | sleep : Ev
deriving DecidableEq

/-- Expected ready acknowledgement text, the `"OK"` argument at src line 131. -/
def okText : List Char := ['O', 'K']

/-- Completion acknowledgement text, the `"done"` literal at src line 156. -/
def doneText : List Char := ['d', 'o', 'n', 'e']

/-- Embedding of `SmartSketchUploader.wait_for_response` (src lines 36-48).
Real time is abstracted away: `log` is the content of `self.responses` as
observed during the wait window (the poll loop succeeds exactly when some
logged text contains `expected` case-insensitively), and `timeout` carries the
source's timeout argument.  The trace records the notification subscription
bracket performed on both the success and the timeout path. -/
def wait_for_response (log : List (List Char)) (expected : List Char)
    (timeout : Nat) : List Ev × Bool :=
  ([Ev.startNotify, Ev.stopNotify],
   log.any (fun response => containsCI response expected))

/-- Chunk-sending loop of `upload_image` (src lines 142-146) over the
enumerated chunk list: a progress print every 50 chunks, then a
fire-and-forget write and a pacing sleep per chunk.  `failAt = some i` models
the write of chunk `i` raising an exception: the trace stops at the failing
write and the second component reports the abort. -/
def sendChunksGo (total : Nat) (failAt : Option Nat) :
    List (Nat × List Nat) → List Ev × Bool
  | [] => ([], false)
  | (i, chunk) :: rest =>
    let pre : List Ev := if i % 50 = 0 then [Ev.msg (Msg.progress i total)] else []
    if failAt = some i then (pre, true)
    else
      let r := sendChunksGo total failAt rest
      (pre ++ Ev.writeChar chunk false :: Ev.sleep :: r.1, r.2)

/-- Embedding of `SmartSketchUploader.upload_image` (src lines 108-168),
starting from the already transcoded Pixel-565 buffer (`load_and_prepare_image`
and `rgb_to_rgb565`, modelled above, produce it at src lines 115-118).
Environment oracle: `log1` is the content of `self.responses` observed within
the 10 s ready window, `log1 ++ log2` the content observed within the 20 s
completion window (the log only grows), and `failAt` optionally names a chunk
write that raises.  The result is the event trace paired with the outcome:
`Except.ok` of the source's return value, or `Except.error ()` when an
exception propagates out. -/
def upload_image (rgb565_data : List Nat) (chunk_size : Nat)
    (log1 log2 : List (List Char)) (failAt : Option Nat) :
    List Ev × Except Unit Bool :=
  let chunks := prepare_chunks rgb565_data chunk_size
  let t0 : List Ev :=
    [Ev.msg Msg.banner, Ev.msg (Msg.rgbLen rgb565_data.length),
     Ev.msg (Msg.totalChunks chunks.length), Ev.msg Msg.sendingCommand,
     Ev.writeChar (command_frame chunk_size) false]
  let w := wait_for_response log1 okText 10
  if w.2 = false then
    (t0 ++ w.1 ++ [Ev.msg Msg.failedOk], Except.ok false)
  else
    let t1 := t0 ++ w.1 ++
      [Ev.msg Msg.deviceReady, Ev.startNotify, Ev.msg (Msg.uploading chunks.length)]
    let s := sendChunksGo chunks.length failAt chunks.enum
    if s.2 then (t1 ++ s.1, Except.error ())
    else
      let t2 := t1 ++ s.1 ++
        [Ev.msg (Msg.progressDone chunks.length), Ev.msg Msg.allSent,
         Ev.msg Msg.waitingDone]
      if (log1 ++ log2).any (fun response => containsCI response doneText) then
        (t2 ++ [Ev.stopNotify, Ev.msg Msg.successBanner], Except.ok true)
      else
        (t2 ++ [Ev.stopNotify, Ev.msg Msg.softTimeout], Except.ok true)

/-- Characteristic writes of a trace, in order, each with its `response`
flag. -/
def writesOf (t : List Ev) : List (List Nat × Bool) :=
  t.filterMap fun e =>
    match e with
    | Ev.writeChar d r => some (d, r)
    | _ => none

/-- Subscription discipline of a trace: as many `stop_notify` calls as
`start_notify` calls were performed. -/
def notifyBalanced (t : List Ev) : Prop :=
  (t.filter (fun e => e = Ev.startNotify)).length =
    (t.filter (fun e => e = Ev.stopNotify)).length

/-- Model of a discovered BLE device as the locator sees it: advertised name
(`None` possible) and address. -/
structure BLEDevice where
  name : Option (List Char)
  address : List Char
deriving DecidableEq

/-- Name predicate of the locator loop (src line 205): the name is present and
truthy, and contains both `smart` and `sketch` case-insensitively. -/
def matchesSmartSketch (d : BLEDevice) : Bool :=
  match d.name with
  | none => false
  | some n =>
    !n.isEmpty && containsCI n ['s', 'm', 'a', 'r', 't'] &&
      containsCI n ['s', 'k', 'e', 't', 'c', 'h']

/-- Embedding of the device-selection loop in `main` (src lines 202-208):
first discovered device matching the name predicate, `none` when the scan
found no match (src line 210). -/
def find_smart_sketch (devices : List BLEDevice) : Option BLEDevice :=
  devices.find? matchesSmartSketch

/-- Advertised name from end-to-end scenario B of the spec. -/
def smartName : List Char :=
  ['s', 'm', 'A', 'R', 'T', '_', 'S', 'k', 'e', 't', 'c', 'h', 'e', 'r', '2', '.', '0']

/-- Non-matching advertised name from end-to-end scenario B of the spec. -/
def otherName : List Char :=
  ['O', 't', 'h', 'e', 'r', 'G', 'a', 'd', 'g', 'e', 't']

/-- Concrete device carrying `smartName`. -/
def devS : BLEDevice := { name := some smartName, address := [] }

/-- Concrete device carrying `otherName`. -/
def devO : BLEDevice := { name := some otherName, address := [] }

/-! ### Chunk framer lemmas -/

theorem chunksOfGo_nil (cs fuel : Nat) : chunksOfGo cs fuel [] = [] := by
  cases fuel <;> rfl

theorem chunksOfGo_flatten (cs : Nat) (hcs : 1 ≤ cs) :
    ∀ (fuel : Nat) (l : List Nat), l.length ≤ fuel →
      (chunksOfGo cs fuel l).flatten = l := by
  intro fuel
  induction fuel with
  | zero =>
    intro l hl
    have : l = [] := List.eq_nil_of_length_eq_zero (Nat.le_zero.mp hl)
    subst this
    rfl
  | succ n ih =>
    intro l hl
    cases l with
    | nil => rfl
    | cons c t =>
      have hd : ((c :: t).drop cs).length ≤ n := by
        simp only [List.length_drop, List.length_cons]
        simp only [List.length_cons] at hl
        omega
      calc (chunksOfGo cs (n + 1) (c :: t)).flatten
          = (c :: t).take cs ++ (chunksOfGo cs n ((c :: t).drop cs)).flatten := by
            rfl
        _ = (c :: t).take cs ++ (c :: t).drop cs := by rw [ih _ hd]
        _ = c :: t := List.take_append_drop cs (c :: t)

theorem chunksOfGo_chunk_le (cs : Nat) :
    ∀ (fuel : Nat) (l : List Nat), ∀ c ∈ chunksOfGo cs fuel l, c.length ≤ cs := by
  intro fuel
  induction fuel with
  | zero => intro l c hc; simp [chunksOfGo] at hc
  | succ n ih =>
    intro l c hc
    cases l with
    | nil => simp [chunksOfGo] at hc
    | cons a t =>
      have he : chunksOfGo cs (n + 1) (a :: t)
          = (a :: t).take cs :: chunksOfGo cs n ((a :: t).drop cs) := rfl
      rw [he, List.mem_cons] at hc
      rcases hc with rfl | hc
      · rw [List.length_take]
        exact Nat.min_le_left ..
      · exact ih _ _ hc

theorem chunksOfGo_dropLast_eq (cs : Nat) (hcs : 1 ≤ cs) :
    ∀ (fuel : Nat) (l : List Nat), l.length ≤ fuel →
      ∀ c ∈ (chunksOfGo cs fuel l).dropLast, c.length = cs := by
  intro fuel
  induction fuel with
  | zero => intro l hl c hc; simp [chunksOfGo] at hc
  | succ n ih =>
    intro l hl c hc
    cases l with
    | nil => simp [chunksOfGo] at hc
    | cons a t =>
      have he : chunksOfGo cs (n + 1) (a :: t)
          = (a :: t).take cs :: chunksOfGo cs n ((a :: t).drop cs) := rfl
      rw [he] at hc
      cases hrest : chunksOfGo cs n ((a :: t).drop cs) with
      | nil => rw [hrest] at hc; simp at hc
      | cons r rs =>
        rw [hrest, List.dropLast_cons₂, List.mem_cons] at hc
        have hlen : cs < (a :: t).length := by
          by_contra hle
          push_neg at hle
          have : (a :: t).drop cs = [] := List.drop_eq_nil_of_le hle
          rw [this, chunksOfGo_nil] at hrest
          exact List.noConfusion hrest
        rcases hc with rfl | hc
        · rw [List.length_take]
          omega
        · have hd : ((a :: t).drop cs).length ≤ n := by
            simp only [List.length_drop, List.length_cons]
            simp only [List.length_cons] at hl
            omega
          exact ih _ hd c (hrest ▸ hc)

theorem chunksOfGo_length_80 :
    ∀ (fuel : Nat) (l : List Nat), l.length ≤ fuel →
      (chunksOfGo 80 fuel l).length = (l.length + 79) / 80 := by
  intro fuel
  induction fuel with
  | zero =>
    intro l hl
    have : l = [] := List.eq_nil_of_length_eq_zero (Nat.le_zero.mp hl)
    subst this
    rfl
  | succ n ih =>
    intro l hl
    cases l with
    | nil => rfl
    | cons a t =>
      have he : chunksOfGo 80 (n + 1) (a :: t)
          = (a :: t).take 80 :: chunksOfGo 80 n ((a :: t).drop 80) := rfl
      have hd : ((a :: t).drop 80).length ≤ n := by
        simp only [List.length_drop, List.length_cons]
        simp only [List.length_cons] at hl
        omega
      rw [he, List.length_cons, ih _ hd]
      simp only [List.length_drop, List.length_cons]
      omega

/-- C3: the chunk framer reverses the buffer and partitions it into
consecutive `chunk_size`-byte chunks with a possibly shorter final chunk, and
concatenating all chunks and reversing the result reproduces the original
buffer exactly, for every chunk size ≥ 1 and every buffer length. -/
theorem prepare_chunks_lossless (buf : List Nat) (chunk_size : Nat)
    (hcs : 1 ≤ chunk_size) :
    (prepare_chunks buf chunk_size).flatten = buf.reverse ∧
    ((prepare_chunks buf chunk_size).flatten).reverse = buf ∧
    (∀ c ∈ (prepare_chunks buf chunk_size).dropLast, c.length = chunk_size) ∧
    (∀ c ∈ prepare_chunks buf chunk_size, c.length ≤ chunk_size) := by
  have h1 : (prepare_chunks buf chunk_size).flatten = buf.reverse :=
    chunksOfGo_flatten chunk_size hcs _ _ (Nat.le_refl _)
  refine ⟨h1, ?_, ?_, ?_⟩
  · rw [h1, List.reverse_reverse]
  · exact chunksOfGo_dropLast_eq _ hcs _ _ (Nat.le_refl _)
  · exact chunksOfGo_chunk_le _ _ _

/-- Witness for C3 at a concrete buffer and chunk size. -/
theorem prepare_chunks_lossless_witness :
    1 ≤ 2 ∧ ((prepare_chunks [1, 2, 3] 2).flatten).reverse = [1, 2, 3] :=
  ⟨by decide, (prepare_chunks_lossless [1, 2, 3] 2 (by decide)).2.1⟩

/-! ### Bit-field arithmetic for the 5-6-5 packing -/

theorem and_31_eq_mod (x : Nat) : x &&& 0x1F = x % 32 := by
  have h := Nat.and_pow_two_sub_one_eq_mod x 5
  norm_num at h
  exact h

theorem and_63_eq_mod (x : Nat) : x &&& 0x3F = x % 64 := by
  have h := Nat.and_pow_two_sub_one_eq_mod x 6
  norm_num at h
  exact h

theorem and_255_eq_mod (x : Nat) : x &&& 0xFF = x % 256 := by
  have h := Nat.and_pow_two_sub_one_eq_mod x 8
  norm_num at h
  exact h

theorem shiftRight_3_eq (x : Nat) : x >>> 3 = x / 8 := by
  rw [Nat.shiftRight_eq_div_pow]

theorem shiftRight_2_eq (x : Nat) : x >>> 2 = x / 4 := by
  rw [Nat.shiftRight_eq_div_pow]

theorem pack_fields_arith (r5 g6 b5 : Nat) (h6 : g6 < 64) (hb : b5 < 32) :
    (r5 <<< 11) ||| (g6 <<< 5) ||| b5 = r5 * 2048 + g6 * 32 + b5 := by
  rw [Nat.shiftLeft_eq, Nat.shiftLeft_eq]
  have e1 : r5 * 2 ^ 11 ||| g6 * 2 ^ 5 = r5 * 2 ^ 11 + g6 * 2 ^ 5 := by
    have hlt : g6 * 2 ^ 5 < 2 ^ 11 := by norm_num; omega
    have h := Nat.mul_add_lt_is_or hlt r5
    rw [Nat.mul_comm (2 ^ 11) r5] at h
    exact h.symm
  rw [e1]
  have e2 : r5 * 2 ^ 11 + g6 * 2 ^ 5 = 2 ^ 5 * (r5 * 2 ^ 6 + g6) := by ring
  rw [e2]
  have hb5 : b5 < 2 ^ 5 := by norm_num; omega
  rw [← Nat.mul_add_lt_is_or hb5 (r5 * 2 ^ 6 + g6)]
  ring

theorem pack565_eq_arith (r g b : Nat) :
    pack565 r g b = (r / 8 % 32) * 2048 + (g / 4 % 64) * 32 + b / 8 % 32 := by
  have hr : (r >>> 3) &&& 0x1F = r / 8 % 32 := by
    rw [shiftRight_3_eq, and_31_eq_mod]
  have hg : (g >>> 2) &&& 0x3F = g / 4 % 64 := by
    rw [shiftRight_2_eq, and_63_eq_mod]
  have hb : (b >>> 3) &&& 0x1F = b / 8 % 32 := by
    rw [shiftRight_3_eq, and_31_eq_mod]
  rw [pack565, hr, hg, hb]
  exact pack_fields_arith _ _ _ (Nat.mod_lt _ (by norm_num)) (Nat.mod_lt _ (by norm_num))

/-- C9: packing an 8-bit-per-channel pixel into 5-6-5 and unpacking it again
recovers each channel within its quantization error bound — at most 7 for red
and blue, at most 3 for green — and never exceeds it (the recovered value
never overshoots the original). -/
theorem pack_unpack_roundtrip (r g b : Nat) (hr : r < 256) (hg : g < 256)
    (hb : b < 256) :
    (unpack565 (pack565 r g b)).1 ≤ r ∧ r - (unpack565 (pack565 r g b)).1 ≤ 7 ∧
    (unpack565 (pack565 r g b)).2.1 ≤ g ∧ g - (unpack565 (pack565 r g b)).2.1 ≤ 3 ∧
    (unpack565 (pack565 r g b)).2.2 ≤ b ∧ b - (unpack565 (pack565 r g b)).2.2 ≤ 7 := by
  have hv : pack565 r g b = (r / 8) * 2048 + (g / 4) * 32 + b / 8 := by
    rw [pack565_eq_arith]
    have h1 : r / 8 < 32 := by omega
    have h2 : g / 4 < 64 := by omega
    have h3 : b / 8 < 32 := by omega
    rw [Nat.mod_eq_of_lt h1, Nat.mod_eq_of_lt h2, Nat.mod_eq_of_lt h3]
  have u1 : ∀ v : Nat, (unpack565 v).1 = (v / 2048 % 32) * 8 := by
    intro v
    simp only [unpack565]
    rw [Nat.shiftRight_eq_div_pow, and_31_eq_mod, Nat.shiftLeft_eq]
  have u2 : ∀ v : Nat, (unpack565 v).2.1 = (v / 32 % 64) * 4 := by
    intro v
    simp only [unpack565]
    rw [Nat.shiftRight_eq_div_pow, and_63_eq_mod, Nat.shiftLeft_eq]
  have u3 : ∀ v : Nat, (unpack565 v).2.2 = (v % 32) * 8 := by
    intro v
    simp only [unpack565]
    rw [and_31_eq_mod, Nat.shiftLeft_eq]
  rw [u1, u2, u3, hv]
  omega

/-- Witness for C9 at the concrete pixel (200, 100, 50). -/
theorem pack_unpack_roundtrip_witness :
    (200 : Nat) < 256 ∧ (100 : Nat) < 256 ∧ (50 : Nat) < 256 ∧
    ((unpack565 (pack565 200 100 50)).1 ≤ 200 ∧
      200 - (unpack565 (pack565 200 100 50)).1 ≤ 7 ∧
      (unpack565 (pack565 200 100 50)).2.1 ≤ 100 ∧
      100 - (unpack565 (pack565 200 100 50)).2.1 ≤ 3 ∧
      (unpack565 (pack565 200 100 50)).2.2 ≤ 50 ∧
      50 - (unpack565 (pack565 200 100 50)).2.2 ≤ 7) :=
  ⟨by decide, by decide, by decide,
    pack_unpack_roundtrip 200 100 50 (by decide) (by decide) (by decide)⟩

/-! ### Transcoder vs. spec -/

theorem pack565_eq_of_lt (r g b : Nat) (hr : r < 256) (hg : g < 256)
    (hb : b < 256) :
    pack565 r g b = (r / 8) * 2048 + (g / 4) * 32 + b / 8 := by
  rw [pack565_eq_arith]
  have h1 : r / 8 < 32 := by omega
  have h2 : g / 4 < 64 := by omega
  have h3 : b / 8 < 32 := by omega
  rw [Nat.mod_eq_of_lt h1, Nat.mod_eq_of_lt h2, Nat.mod_eq_of_lt h3]

theorem spec_pack_eq (r g b : Nat) (hg : g < 256) (hb : b < 256) :
    ((r >>> 3) <<< 11) ||| ((g >>> 2) <<< 5) ||| (b >>> 3)
      = (r / 8) * 2048 + (g / 4) * 32 + b / 8 := by
  rw [shiftRight_3_eq r, shiftRight_2_eq g, shiftRight_3_eq b]
  exact pack_fields_arith _ _ _ (by omega) (by omega)

theorem shiftRight_8_eq (x : Nat) : x >>> 8 = x / 256 := by
  rw [Nat.shiftRight_eq_div_pow]

theorem pixel_bytes_eq (r g b : Nat) (hr : r < 256) (hg : g < 256)
    (hb : b < 256) :
    [pack565 r g b &&& 0xFF, (pack565 r g b >>> 8) &&& 0xFF]
      = rgb565_pixel_spec r g b := by
  simp only [rgb565_pixel_spec]
  rw [pack565_eq_of_lt r g b hr hg hb, spec_pack_eq r g b hg hb,
    and_255_eq_mod, shiftRight_8_eq, and_255_eq_mod]
  have hlt : ((r / 8) * 2048 + (g / 4) * 32 + b / 8) / 256 < 256 := by omega
  rw [Nat.mod_eq_of_lt hlt]

theorem flatMap_congr {α β : Type} (l : List α) (f g : α → List β)
    (h : ∀ a ∈ l, f a = g a) : l.flatMap f = l.flatMap g := by
  induction l with
  | nil => rfl
  | cons a t ih =>
    simp only [List.flatMap_cons]
    rw [h a (List.mem_cons_self a t), ih (fun x hx => h x (List.mem_cons_of_mem a hx))]

/-- C1: on 8-bit-per-channel pixels the transcoder emits, in row-major order,
for every pixel the packed value `(red5 <<< 11) ||| (green6 <<< 5) ||| blue5`
with `red5 = r >>> 3`, `green6 = g >>> 2`, `blue5 = b >>> 3`, as low byte
followed by high byte. -/
theorem rgb_to_rgb565_matches_spec (img : PILImage)
    (hpix : ∀ x y, (img.pix x y).1 < 256 ∧ (img.pix x y).2.1 < 256 ∧
      (img.pix x y).2.2 < 256) :
    rgb_to_rgb565 img = rgb565_spec img := by
  unfold rgb_to_rgb565 rgb565_spec
  refine flatMap_congr _ _ _ (fun y _ => ?_)
  refine flatMap_congr _ _ _ (fun x _ => ?_)
  obtain ⟨hr, hg, hb⟩ := hpix x y
  rcases hxy : img.pix x y with ⟨r, g, b⟩
  rw [hxy] at hr hg hb
  have hr' : r < 256 := hr
  have hg' : g < 256 := hg
  have hb' : b < 256 := hb
  show [pack565 r g b &&& 0xFF, (pack565 r g b >>> 8) &&& 0xFF]
    = rgb565_pixel_spec r g b
  exact pixel_bytes_eq r g b hr' hg' hb'

/-- Concrete two-pixel image used by the witness of C1. -/
def imgW : PILImage :=
  { mode := "RGB", width := 2, height := 1, pix := fun _ _ => (255, 128, 7) }

/-- Witness for C1 at a concrete image with 8-bit channels. -/
theorem rgb_to_rgb565_matches_spec_witness :
    rgb_to_rgb565 imgW = rgb565_spec imgW := by
  have h255 : (255 : Nat) < 256 := by decide
  have h128 : (128 : Nat) < 256 := by decide
  have h7 : (7 : Nat) < 256 := by decide
  exact rgb_to_rgb565_matches_spec imgW (fun _ _ => ⟨h255, h128, h7⟩)

theorem length_flatMap_const {α : Type} (l : List α) (f : α → List Nat) (n : Nat)
    (h : ∀ a ∈ l, (f a).length = n) : (l.flatMap f).length = l.length * n := by
  induction l with
  | nil => simp
  | cons a t ih =>
    simp only [List.flatMap_cons, List.length_append, List.length_cons]
    rw [h a (List.mem_cons_self a t), ih (fun x hx => h x (List.mem_cons_of_mem a hx))]
    ring

theorem length_flatMap_flatMap {α β : Type} (l1 : List α) (l2 : List β)
    (f : α → β → List Nat) (n : Nat) (h : ∀ a b, (f a b).length = n) :
    (l1.flatMap (fun a => l2.flatMap (fun b => f a b))).length
      = l1.length * (l2.length * n) := by
  refine length_flatMap_const _ _ _ (fun a _ => ?_)
  exact length_flatMap_const _ _ _ (fun b _ => h a b)

theorem rgb_to_rgb565_length (img : PILImage) :
    (rgb_to_rgb565 img).length = 2 * img.width * img.height := by
  unfold rgb_to_rgb565
  have h := length_flatMap_flatMap (List.range img.height) (List.range img.width)
    (fun y x =>
      match img.pix x y with
      | (r, g, b) =>
        let r5 := (r >>> 3) &&& 0x1F
        let g6 := (g >>> 2) &&& 0x3F
        let b5 := (b >>> 3) &&& 0x1F
        let rgb565 := (r5 <<< 11) ||| (g6 <<< 5) ||| b5
        [rgb565 &&& 0xFF, (rgb565 >>> 8) &&& 0xFF]) 2
    (fun y x => by rcases img.pix x y with ⟨r, g, b⟩; rfl)
  rw [List.length_range, List.length_range] at h
  exact h.trans (by ring)

/-- C2: for every input image of any dimensions and any color mode, the
pipeline convert-to-RGB / resize-to-160x120 / pack-to-5-6-5 produces a buffer
of exactly 2 × 160 × 120 = 38400 bytes, provided the external resampler
honours its contract of returning an image of the requested dimensions. -/
theorem transcode_always_38400 (convert : PILImage → PILImage)
    (resize : PILImage → Nat → Nat → PILImage) (img : PILImage)
    (hres : ∀ i w h, (resize i w h).width = w ∧ (resize i w h).height = h) :
    (rgb_to_rgb565 (load_and_prepare_image convert resize img 160 120)).length
      = 38400 := by
  have hdim : (load_and_prepare_image convert resize img 160 120).width = 160 ∧
      (load_and_prepare_image convert resize img 160 120).height = 120 := by
    simp only [load_and_prepare_image]
    set i1 := if img.mode ≠ "RGB" then convert img else img with hi1
    by_cases hsz : (i1.width, i1.height) ≠ (160, 120)
    · rw [if_pos hsz]
      exact ⟨(hres i1 160 120).1, (hres i1 160 120).2⟩
    · rw [if_neg hsz]
      have hp := not_not.mp hsz
      exact ⟨congrArg Prod.fst hp, congrArg Prod.snd hp⟩
  rw [rgb_to_rgb565_length, hdim.1, hdim.2]

/-- Identity color conversion used by the witness of C2. -/
def convW : PILImage → PILImage := fun i => i

/-- Resampler used by the witness of C2: returns the requested dimensions and
samples the original pixel function. -/
def resizeW : PILImage → Nat → Nat → PILImage := fun i w h =>
  { mode := i.mode, width := w, height := h, pix := i.pix }

/-- Concrete non-RGB 320x240 input image used by the witness of C2. -/
def imgL : PILImage :=
  { mode := "L", width := 320, height := 240, pix := fun _ _ => (0, 0, 0) }

/-- Witness for C2 at a concrete 320x240 grayscale image. -/
theorem transcode_always_38400_witness :
    (rgb_to_rgb565 (load_and_prepare_image convW resizeW imgL 160 120)).length
      = 38400 :=
  transcode_always_38400 convW resizeW imgL (fun _ _ _ => ⟨rfl, rfl⟩)

/-! ### Upload session lemmas -/

theorem sendChunksGo_none_snd (total : Nat) (l : List (Nat × List Nat)) :
    (sendChunksGo total none l).2 = false := by
  induction l with
  | nil => rfl
  | cons p t ih =>
    obtain ⟨i, chunk⟩ := p
    by_cases h50 : i % 50 = 0 <;> simp [sendChunksGo, h50, ih]

theorem sendChunksGo_none_writes (total : Nat) (l : List (Nat × List Nat)) :
    writesOf (sendChunksGo total none l).1 = l.map (fun p => (p.2, false)) := by
  induction l with
  | nil => rfl
  | cons p t ih =>
    obtain ⟨i, chunk⟩ := p
    simp only [writesOf] at ih ⊢
    by_cases h50 : i % 50 = 0 <;>
      simp [sendChunksGo, h50, List.filterMap_append, ih]

theorem sendChunksGo_none_filter_start (total : Nat) (l : List (Nat × List Nat)) :
    (sendChunksGo total none l).1.filter (fun e => e = Ev.startNotify) = [] := by
  induction l with
  | nil => rfl
  | cons p t ih =>
    obtain ⟨i, chunk⟩ := p
    by_cases h50 : i % 50 = 0 <;> simp [sendChunksGo, h50, ih]

theorem sendChunksGo_none_filter_stop (total : Nat) (l : List (Nat × List Nat)) :
    (sendChunksGo total none l).1.filter (fun e => e = Ev.stopNotify) = [] := by
  induction l with
  | nil => rfl
  | cons p t ih =>
    obtain ⟨i, chunk⟩ := p
    by_cases h50 : i % 50 = 0 <;> simp [sendChunksGo, h50, ih]

theorem sendChunksGo_none_no_soft (total : Nat) (l : List (Nat × List Nat)) :
    Ev.msg Msg.softTimeout ∉ (sendChunksGo total none l).1 := by
  induction l with
  | nil => simp [sendChunksGo]
  | cons p t ih =>
    obtain ⟨i, chunk⟩ := p
    by_cases h50 : i % 50 = 0 <;> simp [sendChunksGo, h50, ih]

theorem sendChunksGo_none_no_banner (total : Nat) (l : List (Nat × List Nat)) :
    Ev.msg Msg.successBanner ∉ (sendChunksGo total none l).1 := by
  induction l with
  | nil => simp [sendChunksGo]
  | cons p t ih =>
    obtain ⟨i, chunk⟩ := p
    by_cases h50 : i % 50 = 0 <;> simp [sendChunksGo, h50, ih]

theorem enumFrom_map_snd_pair :
    ∀ (k : Nat) (chunks : List (List Nat)),
      (chunks.enumFrom k).map (fun p => (p.2, false))
        = chunks.map (fun c => (c, false)) := by
  intro k chunks
  induction chunks generalizing k with
  | nil => rfl
  | cons c t ih => simp [List.enumFrom, ih]

theorem writesOf_nil : writesOf [] = [] := rfl

theorem writesOf_append (a b : List Ev) :
    writesOf (a ++ b) = writesOf a ++ writesOf b := by
  simp [writesOf]

theorem writesOf_cons_msg (m : Msg) (t : List Ev) :
    writesOf (Ev.msg m :: t) = writesOf t := by
  simp [writesOf]

theorem writesOf_cons_write (d : List Nat) (r : Bool) (t : List Ev) :
    writesOf (Ev.writeChar d r :: t) = (d, r) :: writesOf t := by
  simp [writesOf]

theorem writesOf_cons_start (t : List Ev) :
    writesOf (Ev.startNotify :: t) = writesOf t := by
  simp [writesOf]

theorem writesOf_cons_stop (t : List Ev) :
    writesOf (Ev.stopNotify :: t) = writesOf t := by
  simp [writesOf]

theorem writesOf_cons_sleep (t : List Ev) :
    writesOf (Ev.sleep :: t) = writesOf t := by
  simp [writesOf]

/-- C5: with no exception injected, the session writes the chunks exactly when
some notification within the ready window contains "ok" case-insensitively
(the device-facing writes are then the Command Frame followed by every chunk
in order); when no such notification arrives, the return value is the hard
failure `false` and no chunk is ever written — the Command Frame is the only
write.  The hard failure return occurs exactly on the no-"ok" runs. -/
theorem ready_gates_chunk_writes (data : List Nat) (cs : Nat)
    (log1 log2 : List (List Char)) :
    writesOf (upload_image data cs log1 log2 none).1 =
      (if log1.any (fun r => containsCI r okText)
       then (command_frame cs, false) ::
         (prepare_chunks data cs).map (fun c => (c, false))
       else [(command_frame cs, false)]) ∧
    ((upload_image data cs log1 log2 none).2 = Except.ok false ↔
      log1.any (fun r => containsCI r okText) = false) := by
  by_cases hready : log1.any (fun r => containsCI r okText) = true
  · by_cases hdone : (log1 ++ log2).any (fun r => containsCI r doneText) = true <;>
      simp [upload_image, wait_for_response, hready, hdone, List.enum,
        writesOf_append, writesOf_cons_msg, writesOf_cons_write,
        writesOf_cons_start, writesOf_cons_stop, writesOf_cons_sleep,
        writesOf_nil, sendChunksGo_none_snd, sendChunksGo_none_writes,
        enumFrom_map_snd_pair]
  · have hready' : log1.any (fun r => containsCI r okText) = false :=
      Bool.not_eq_true _ ▸ (by simpa using hready)
    simp [upload_image, wait_for_response, hready', writesOf_append,
      writesOf_cons_msg, writesOf_cons_write, writesOf_cons_start,
      writesOf_cons_stop, writesOf_nil]

/-- C4: on every run the first bytes written to the device are the 8-byte
Command Frame for the configured chunk size, written with `response = false`
(fire-and-forget); with the default chunk size 80 the fifth byte is 0x50, and
a 38400-byte buffer yields 480 chunks. -/
theorem command_frame_first_write (data : List Nat) (cs : Nat)
    (log1 log2 : List (List Char)) (failAt : Option Nat)
    (h : data.length = 38400) :
    (writesOf (upload_image data cs log1 log2 failAt).1).head?
      = some (command_frame cs, false) ∧
    command_frame 80 = [0x01, 0x00, 0x00, 0x00, 0x50, 0x00, 0x02, 0x00] ∧
    (prepare_chunks data 80).length = 480 := by
  refine ⟨?_, rfl, ?_⟩
  · by_cases hready : log1.any (fun r => containsCI r okText) = true
    · by_cases hs : (sendChunksGo (prepare_chunks data cs).length failAt
          (prepare_chunks data cs).enum).2 = true
      · simp [upload_image, wait_for_response, hready, hs, writesOf_append,
          writesOf_cons_msg, writesOf_cons_write, writesOf_cons_start,
          writesOf_cons_stop]
      · simp only [Bool.not_eq_true] at hs
        by_cases hdone : (log1 ++ log2).any (fun r => containsCI r doneText) = true <;>
          simp [upload_image, wait_for_response, hready, hs, hdone,
            writesOf_append, writesOf_cons_msg, writesOf_cons_write,
            writesOf_cons_start, writesOf_cons_stop, writesOf_nil]
    · simp only [Bool.not_eq_true] at hready
      simp [upload_image, wait_for_response, hready, writesOf_append,
        writesOf_cons_msg, writesOf_cons_write, writesOf_cons_start,
        writesOf_cons_stop, writesOf_nil]
  · unfold prepare_chunks
    rw [chunksOfGo_length_80 _ _ (Nat.le_refl _), List.length_reverse, h]

/-- Witness for C4 at a concrete 38400-byte buffer. -/
theorem command_frame_first_write_witness :
    (List.replicate 38400 0).length = 38400 ∧
    (writesOf (upload_image (List.replicate 38400 0) 80 [] [] none).1).head?
      = some (command_frame 80, false) ∧
    (prepare_chunks (List.replicate 38400 0) 80).length = 480 := by
  have hlen : (List.replicate 38400 (0 : Nat)).length = 38400 :=
    List.length_replicate 38400 0
  have h := command_frame_first_write (List.replicate 38400 0) 80 [] [] none hlen
  exact ⟨hlen, h.1, h.2.2⟩

/-- C6: the three session outcomes are distinguishable from the return value
and the final console message: the return value is `true` exactly on runs that
saw "ok"; the soft-timeout warning is printed exactly on runs that saw "ok"
but never "done" (soft success, upload unconfirmed); the success banner is
printed exactly on runs that saw both (confirmed success). -/
theorem outcome_markers (data : List Nat) (cs : Nat)
    (log1 log2 : List (List Char)) :
    ((upload_image data cs log1 log2 none).2 = Except.ok true ↔
      log1.any (fun r => containsCI r okText) = true) ∧
    (Ev.msg Msg.softTimeout ∈ (upload_image data cs log1 log2 none).1 ↔
      (log1.any (fun r => containsCI r okText) = true ∧
       (log1 ++ log2).any (fun r => containsCI r doneText) = false)) ∧
    (Ev.msg Msg.successBanner ∈ (upload_image data cs log1 log2 none).1 ↔
      (log1.any (fun r => containsCI r okText) = true ∧
       (log1 ++ log2).any (fun r => containsCI r doneText) = true)) := by
  by_cases hready : log1.any (fun r => containsCI r okText) = true
  · by_cases hdone : (log1 ++ log2).any (fun r => containsCI r doneText) = true <;>
      simp [upload_image, wait_for_response, hready, hdone,
        sendChunksGo_none_snd, sendChunksGo_none_no_soft,
        sendChunksGo_none_no_banner]
  · simp only [Bool.not_eq_true] at hready
    simp [upload_image, wait_for_response, hready]

/-- Amended C7: on every exception-free run — confirmed success, soft
completion-timeout, or hard ready-timeout failure — the session stops as many
notification subscriptions as it starts before control leaves it.  (The claim
as stated, covering exception exits as well, is refuted by
the counterexample theorem.) -/
theorem notify_balanced_no_exception (data : List Nat) (cs : Nat)
    (log1 log2 : List (List Char)) :
    notifyBalanced (upload_image data cs log1 log2 none).1 := by
  unfold notifyBalanced
  by_cases hready : log1.any (fun r => containsCI r okText) = true
  · by_cases hdone : (log1 ++ log2).any (fun r => containsCI r doneText) = true <;>
      simp [upload_image, wait_for_response, hready, hdone,
        sendChunksGo_none_snd, List.filter_append,
        sendChunksGo_none_filter_start, sendChunksGo_none_filter_stop]
  · simp only [Bool.not_eq_true] at hready
    simp [upload_image, wait_for_response, hready]

/-- Counterexample to C7 as stated: when the write of chunk 0 raises (after
the device answered "OK"), the exception propagates out of the session with
two `start_notify` calls but only one `stop_notify` — the live subscription
opened at src line 138 is never released on the exception path (no
try/finally brackets the chunk loop). -/
theorem notify_leak_on_exception :
    (upload_image [1, 2, 3] 2 [['O', 'K']] [] (some 0)).2 = Except.error () ∧
    ((upload_image [1, 2, 3] 2 [['O', 'K']] [] (some 0)).1.filter
        (fun e => e = Ev.startNotify)).length = 2 ∧
    ((upload_image [1, 2, 3] 2 [['O', 'K']] [] (some 0)).1.filter
        (fun e => e = Ev.stopNotify)).length = 1 ∧
    ¬ notifyBalanced (upload_image [1, 2, 3] 2 [['O', 'K']] [] (some 0)).1 := by
  refine ⟨rfl, by decide, by decide, ?_⟩
  unfold notifyBalanced
  decide

/-! ### Device locator -/

theorem find?_eq_some_split {α : Type} (p : α → Bool) :
    ∀ (l : List α) (a : α), l.find? p = some a →
      p a = true ∧ ∃ l1 l2, l = l1 ++ a :: l2 ∧ ∀ x ∈ l1, p x = false := by
  intro l
  induction l with
  | nil => intro a h; simp [List.find?] at h
  | cons b t ih =>
    intro a h
    by_cases hb : p b = true
    · rw [List.find?_cons_of_pos _ hb] at h
      obtain rfl : b = a := Option.some.inj h
      exact ⟨hb, [], t, rfl, by simp⟩
    · rw [List.find?_cons_of_neg _ hb] at h
      obtain ⟨hpa, l1, l2, rfl, hl1⟩ := ih a h
      refine ⟨hpa, b :: l1, l2, rfl, ?_⟩
      intro x hx
      rcases List.mem_cons.mp hx with rfl | hx
      · exact Bool.not_eq_true _ ▸ (by simpa using hb)
      · exact hl1 x hx

/-- C8: the locator returns the first discovered device whose advertised name
contains both "smart" and "sketch" case-insensitively, and returns `none`
exactly when no discovered device matches; "smART_Sketcher2.0" matches the
predicate and "OtherGadget" does not. -/
theorem find_smart_sketch_spec (devices : List BLEDevice) :
    (find_smart_sketch devices = none ↔
      ∀ d ∈ devices, matchesSmartSketch d = false) ∧
    (∀ d, find_smart_sketch devices = some d →
      matchesSmartSketch d = true ∧
      ∃ pre post, devices = pre ++ d :: post ∧
        ∀ e ∈ pre, matchesSmartSketch e = false) ∧
    matchesSmartSketch devS = true ∧
    matchesSmartSketch devO = false := by
  refine ⟨?_, ?_, by decide, by decide⟩
  · rw [find_smart_sketch, List.find?_eq_none]
    constructor
    · intro h d hd
      have := h d hd
      simpa using this
    · intro h d hd
      simp [h d hd]
  · intro d h
    exact find?_eq_some_split _ devices d h

/-- Witness for C8 at a concrete two-device scan result. -/
theorem find_smart_sketch_spec_witness :
    find_smart_sketch [devO, devS] = some devS ∧
    matchesSmartSketch devS = true := by
  have hfind : find_smart_sketch [devO, devS] = some devS := by decide
  exact ⟨hfind, ((find_smart_sketch_spec [devO, devS]).2.1 devS hfind).1⟩

/-! ### Notification handler -/

theorem pyStrip_eq_nil_iff (s : List Char) :
    pyStrip s = [] ↔ ∀ c ∈ s, isPySpace c = true := by
  unfold pyStrip
  rw [List.reverse_eq_nil_iff, List.dropWhile_eq_nil_iff]
  constructor
  · intro h c hc
    rw [← List.takeWhile_append_dropWhile (p := isPySpace) (l := s)] at hc
    rcases List.mem_append.mp hc with h1 | h2
    · exact List.mem_takeWhile_imp h1
    · exact h c (List.mem_reverse.mpr h2)
  · intro h c hc
    have hc1 : c ∈ s.dropWhile isPySpace := List.mem_reverse.mp hc
    have hc2 : c ∈ s := by
      rw [← List.takeWhile_append_dropWhile (p := isPySpace) (l := s)]
      exact List.mem_append_right _ hc1
    exact h c hc2

/-- C10: the notification handler appends the ASCII-decoded payload (with
undecodable bytes dropped) to the log exactly when the decoded text contains
at least one non-whitespace character; empty or whitespace-only payloads leave
the log unchanged. -/
theorem notification_handler_spec (responses : List (List Char)) (sender : Nat)
    (data : List Nat) :
    notification_handler responses sender data =
      (if (asciiDecodeIgnore data).any (fun c => !(isPySpace c))
       then responses ++ [asciiDecodeIgnore data]
       else responses) := by
  unfold notification_handler
  by_cases h : (asciiDecodeIgnore data).any (fun c => !(isPySpace c)) = true
  · have hne : pyStrip (asciiDecodeIgnore data) ≠ [] := by
      rw [Ne, pyStrip_eq_nil_iff]
      obtain ⟨c, hc, hcp⟩ := List.any_eq_true.mp h
      intro hall
      have hsp := hall c hc
      rw [hsp] at hcp
      exact Bool.noConfusion hcp
    simp [hne, h]
  · simp only [Bool.not_eq_true] at h
    have hnil : pyStrip (asciiDecodeIgnore data) = [] := by
      rw [pyStrip_eq_nil_iff]
      intro c hc
      by_contra hcp
      have hx : (asciiDecodeIgnore data).any (fun c => !(isPySpace c)) = true :=
        List.any_eq_true.mpr ⟨c, hc, by
          rcases Bool.eq_false_or_eq_true (isPySpace c) with hh | hh
          · exact absurd hh hcp
          · simp [hh]⟩
      rw [h] at hx
      exact Bool.noConfusion hx
    simp [hnil, h]

end SmartSketch
